import Mathlib

/-!
Verification of SpectroscoPy/Utilities.py (Phonopy-Spectroscopy).

Shallow embedding of the module's functions over exact rational (and,
for the mass-weighting routine, real) arithmetic, together with theorems
settling the specification claims about unit conversion, peak-table
grouping, coordinate transforms and eigendisplacement scaling.
-/

namespace SpectroscoPy

/-- The conversion constants imported from Constants.py (not part of this
module); the converter treats them as opaque fixed real numbers, so the
embedding abstracts them as a parameter record. -/
structure UnitConstants where
  THzToInvCm : ℚ
  THzToMeV : ℚ
  THzToInvUm : ℚ
deriving Repr

/-- The distinct failure conditions of the module, one constructor per
raise site, following the specification's error taxonomy. -/
inductive UtilError where
  | unsupportedUnits (key : String)
  | inconsistentLength
  | duplicateBandIndex (index : ℤ)
  | bandIndexOutOfRange (index : ℤ) (numModes : ℕ)
  | incompleteBandCoverage
  | invalidLatticeShape
  | shapeMismatch
  | massCountMismatch
  | indexError
deriving DecidableEq, Repr

instance {ε α : Type} [DecidableEq ε] [DecidableEq α] : DecidableEq (Except ε α) :=
  fun x y =>
    match x, y with
    | Except.ok a, Except.ok b =>
      if h : a = b then Decidable.isTrue (by rw [h])
      else Decidable.isFalse (fun hc => h (Except.ok.inj hc))
    | Except.error a, Except.error b =>
      if h : a = b then Decidable.isTrue (by rw [h])
      else Decidable.isFalse (fun hc => h (Except.error.inj hc))
    | Except.ok _, Except.error _ => Decidable.isFalse (fun hc => Except.noConfusion hc)
    | Except.error _, Except.ok _ => Decidable.isFalse (fun hc => Except.noConfusion hc)

/-- Python str.lower restricted to the ASCII strings this module handles:
lower-case every character. -/
def strLower (s : String) : String := String.mk (s.data.map Char.toLower)

@[simp] theorem strLower_thz_eval : strLower "thz" = "thz" := by decide

@[simp] theorem strLower_inv_cm_eval : strLower "inv_cm" = "inv_cm" := by decide

@[simp] theorem strLower_mev_eval : strLower "mev" = "mev" := by decide

@[simp] theorem strLower_um_eval : strLower "um" = "um" := by decide

/-- The four unit keys recognized by ConvertFrequencyUnits. -/
def recognizedUnitKeys : List String := ["thz", "inv_cm", "mev", "um"]

/-- Embedding of ConvertFrequencyUnits: lower-case both keys, short-circuit
when they agree, otherwise pivot through THz dividing by the source
constant (reciprocal rule for um) and then multiply by the target constant
(reciprocal rule for um); unknown keys fail at their use site. -/
def ConvertFrequencyUnits (C : UnitConstants) (frequencies : List ℚ)
    (unitsFrom unitsTo : String) : Except UtilError (List ℚ) :=
  let uf := strLower unitsFrom
  let ut := strLower unitsTo
  if uf = ut then Except.ok frequencies
  else
    let step1 : Except UtilError (List ℚ) :=
      if uf = "thz" then Except.ok frequencies
      else if uf = "inv_cm" then
        Except.ok (frequencies.map (fun frequency => frequency / C.THzToInvCm))
      else if uf = "mev" then
        Except.ok (frequencies.map (fun frequency => frequency / C.THzToMeV))
      else if uf = "um" then
        Except.ok (frequencies.map (fun frequency => 1 / (frequency * C.THzToInvUm)))
      else Except.error (UtilError.unsupportedUnits uf)
    match step1 with
    | Except.error e => Except.error e
    | Except.ok frequencies1 =>
      if ut = "thz" then Except.ok frequencies1
      else if ut = "inv_cm" then
        Except.ok (frequencies1.map (fun frequency => frequency * C.THzToInvCm))
      else if ut = "mev" then
        Except.ok (frequencies1.map (fun frequency => frequency * C.THzToMeV))
      else if ut = "um" then
        Except.ok (frequencies1.map (fun frequency => 1 / (frequency * C.THzToInvUm)))
      else Except.error (UtilError.unsupportedUnits ut)

/-- The to-pivot stage described by the spec: divide by the ratio-to-THz
constant of the source unit, except um, which maps v to 1 / (v * c). -/
def specToPivot (C : UnitConstants) (key : String) (v : ℚ) : ℚ :=
  if key = "inv_cm" then v / C.THzToInvCm
  else if key = "mev" then v / C.THzToMeV
  else if key = "um" then 1 / (v * C.THzToInvUm)
  else v

/-- The from-pivot stage described by the spec: multiply by the
ratio-to-THz constant of the target unit, except um, again via the
reciprocal formula. -/
def specFromPivot (C : UnitConstants) (key : String) (v : ℚ) : ℚ :=
  if key = "inv_cm" then v * C.THzToInvCm
  else if key = "mev" then v * C.THzToMeV
  else if key = "um" then 1 / (v * C.THzToInvUm)
  else v

theorem convert_eq_pipeline (C : UnitConstants) (frequencies : List ℚ)
    (unitsFrom unitsTo : String)
    (hf : strLower unitsFrom ∈ recognizedUnitKeys)
    (ht : strLower unitsTo ∈ recognizedUnitKeys)
    (hne : strLower unitsFrom ≠ strLower unitsTo) :
    ConvertFrequencyUnits C frequencies unitsFrom unitsTo =
      Except.ok (frequencies.map
        (fun v => specFromPivot C (strLower unitsTo) (specToPivot C (strLower unitsFrom) v))) := by
  simp only [recognizedUnitKeys, List.mem_cons, List.mem_singleton,
    List.not_mem_nil, or_false] at hf ht
  rcases hf with hf | hf | hf | hf <;> rcases ht with ht | ht | ht | ht <;>
    simp_all [ConvertFrequencyUnits, specToPivot, specFromPivot, List.map_map,
      Function.comp]

theorem convert_same_key (C : UnitConstants) (frequencies : List ℚ)
    (unitsFrom unitsTo : String) (h : strLower unitsFrom = strLower unitsTo) :
    ConvertFrequencyUnits C frequencies unitsFrom unitsTo = Except.ok frequencies := by
  simp [ConvertFrequencyUnits, h]

theorem list_map_id_of_mem {α : Type} (l : List α) (f : α → α)
    (h : ∀ x ∈ l, f x = x) : l.map f = l := by
  induction l with
  | nil => rfl
  | cons x xs ih =>
    simp only [List.map_cons, List.cons.injEq]
    exact ⟨h x (List.mem_cons_self x xs), ih fun y hy => h y (List.mem_cons_of_mem x hy)⟩

theorem specToPivot_pos (C : UnitConstants)
    (hc1 : 0 < C.THzToInvCm) (hc2 : 0 < C.THzToMeV) (hc3 : 0 < C.THzToInvUm)
    (key : String) (hk : key ∈ recognizedUnitKeys) (v : ℚ) (hv : 0 < v) :
    0 < specToPivot C key v := by
  simp only [recognizedUnitKeys, List.mem_cons, List.mem_singleton,
    List.not_mem_nil, or_false] at hk
  rcases hk with hk | hk | hk | hk <;> subst hk <;> simp [specToPivot] <;> positivity

theorem specToPivot_specFromPivot (C : UnitConstants)
    (hc1 : 0 < C.THzToInvCm) (hc2 : 0 < C.THzToMeV) (hc3 : 0 < C.THzToInvUm)
    (key : String) (hk : key ∈ recognizedUnitKeys) (v : ℚ) (hv : 0 < v) :
    specToPivot C key (specFromPivot C key v) = v := by
  simp only [recognizedUnitKeys, List.mem_cons, List.mem_singleton,
    List.not_mem_nil, or_false] at hk
  have h1 := hc1.ne.symm
  have h2 := hc2.ne.symm
  have h3 := hc3.ne.symm
  have hv0 := hv.ne.symm
  rcases hk with hk | hk | hk | hk <;> subst hk <;>
    simp [specToPivot, specFromPivot] <;> field_simp

theorem specFromPivot_specToPivot (C : UnitConstants)
    (hc1 : 0 < C.THzToInvCm) (hc2 : 0 < C.THzToMeV) (hc3 : 0 < C.THzToInvUm)
    (key : String) (hk : key ∈ recognizedUnitKeys) (v : ℚ) (hv : 0 < v) :
    specFromPivot C key (specToPivot C key v) = v := by
  simp only [recognizedUnitKeys, List.mem_cons, List.mem_singleton,
    List.not_mem_nil, or_false] at hk
  have h1 := hc1.ne.symm
  have h2 := hc2.ne.symm
  have h3 := hc3.ne.symm
  have hv0 := hv.ne.symm
  rcases hk with hk | hk | hk | hk <;> subst hk <;>
    simp [specToPivot, specFromPivot] <;> field_simp

/-- Claim C7: when the source and target unit strings agree after
lower-casing, ConvertFrequencyUnits returns its input list exactly
unchanged, whatever the keys are and with no arithmetic performed. -/
theorem convertFrequencyUnits_identity (C : UnitConstants) (values : List ℚ)
    (unitsFrom unitsTo : String) (h : strLower unitsFrom = strLower unitsTo) :
    ConvertFrequencyUnits C values unitsFrom unitsTo = Except.ok values :=
  convert_same_key C values unitsFrom unitsTo h

theorem convertFrequencyUnits_identity_witness :
    ConvertFrequencyUnits ⟨2, 3, 5⟩ [1, 5/2, 3] "THz" "thz" = Except.ok [1, 5/2, 3] :=
  convertFrequencyUnits_identity ⟨2, 3, 5⟩ [1, 5/2, 3] "THz" "thz" (by decide)

/-- Claim C2: for distinct recognized keys the conversion is the two-stage
pipeline (divide by the source ratio-to-THz constant, um via the
reciprocal formula; then multiply by the target constant, um again via the
reciprocal), and converting 1.0 from THz hits the constants exactly. -/
theorem convertFrequencyUnits_two_stage (C : UnitConstants) (values : List ℚ)
    (unitsFrom unitsTo : String)
    (hf : strLower unitsFrom ∈ recognizedUnitKeys)
    (ht : strLower unitsTo ∈ recognizedUnitKeys)
    (hne : strLower unitsFrom ≠ strLower unitsTo) :
    ConvertFrequencyUnits C values unitsFrom unitsTo =
      Except.ok (values.map
        (fun v => specFromPivot C (strLower unitsTo) (specToPivot C (strLower unitsFrom) v)))
    ∧ ConvertFrequencyUnits C [1] "thz" "inv_cm" = Except.ok [C.THzToInvCm]
    ∧ ConvertFrequencyUnits C [1] "thz" "mev" = Except.ok [C.THzToMeV] := by
  refine ⟨convert_eq_pipeline C values unitsFrom unitsTo hf ht hne, ?_, ?_⟩ <;>
    simp [ConvertFrequencyUnits]

theorem convertFrequencyUnits_two_stage_witness :
    ConvertFrequencyUnits ⟨2, 3, 5⟩ [7] "inv_cm" "mev" =
      Except.ok ([7].map
        (fun v => specFromPivot ⟨2, 3, 5⟩ (strLower "mev") (specToPivot ⟨2, 3, 5⟩ (strLower "inv_cm") v)))
    ∧ ConvertFrequencyUnits ⟨2, 3, 5⟩ [1] "thz" "inv_cm" =
        Except.ok [(⟨2, 3, 5⟩ : UnitConstants).THzToInvCm]
    ∧ ConvertFrequencyUnits ⟨2, 3, 5⟩ [1] "thz" "mev" =
        Except.ok [(⟨2, 3, 5⟩ : UnitConstants).THzToMeV] :=
  convertFrequencyUnits_two_stage ⟨2, 3, 5⟩ [7] "inv_cm" "mev"
    (by decide) (by decide) (by decide)

/-- Claim C3 is refuted by the short-circuit on equal keys: with an
unrecognized key used as both source and target the call returns its
input unchanged instead of failing. -/
theorem convert_invalid_equal_keys_no_failure :
    ConvertFrequencyUnits ⟨2, 3, 5⟩ [1] "bogus" "bogus" = Except.ok [1] :=
  convert_same_key ⟨2, 3, 5⟩ [1] "bogus" "bogus" rfl

/-- Claim C3 (amended): when the source and target keys differ after
case-folding, an unrecognized key fails with the unsupported-units error
naming the offending key (the source at the first stage, the target at
the second); when the folded keys are equal, the input is returned
unchanged without any validation. -/
theorem convertFrequencyUnits_unsupported (C : UnitConstants) (values : List ℚ)
    (unitsFrom unitsTo : String) :
    (strLower unitsFrom ≠ strLower unitsTo → strLower unitsFrom ∉ recognizedUnitKeys →
      ConvertFrequencyUnits C values unitsFrom unitsTo =
        Except.error (UtilError.unsupportedUnits (strLower unitsFrom)))
    ∧ (strLower unitsFrom ≠ strLower unitsTo → strLower unitsFrom ∈ recognizedUnitKeys →
        strLower unitsTo ∉ recognizedUnitKeys →
      ConvertFrequencyUnits C values unitsFrom unitsTo =
        Except.error (UtilError.unsupportedUnits (strLower unitsTo)))
    ∧ (strLower unitsFrom = strLower unitsTo →
      ConvertFrequencyUnits C values unitsFrom unitsTo = Except.ok values) := by
  refine ⟨?_, ?_, fun heq => convert_same_key C values unitsFrom unitsTo heq⟩
  · intro hne hbad
    simp only [recognizedUnitKeys, List.mem_cons, List.mem_singleton,
      List.not_mem_nil, or_false, not_or] at hbad
    obtain ⟨h1, h2, h3, h4⟩ := hbad
    simp [ConvertFrequencyUnits, hne, h1, h2, h3, h4]
  · intro hne hok hbad
    simp only [recognizedUnitKeys, List.mem_cons, List.mem_singleton,
      List.not_mem_nil, or_false, not_or] at hok hbad
    obtain ⟨g1, g2, g3, g4⟩ := hbad
    have g1s : "thz" ≠ strLower unitsTo := fun h => g1 h.symm
    have g2s : "inv_cm" ≠ strLower unitsTo := fun h => g2 h.symm
    have g3s : "mev" ≠ strLower unitsTo := fun h => g3 h.symm
    have g4s : "um" ≠ strLower unitsTo := fun h => g4 h.symm
    rcases hok with hk | hk | hk | hk <;>
      simp [ConvertFrequencyUnits, hne, hk, g1, g2, g3, g4, g1s, g2s, g3s, g4s]

theorem convertFrequencyUnits_unsupported_witness :
    ConvertFrequencyUnits ⟨2, 3, 5⟩ [1] "bogus" "thz" =
      Except.error (UtilError.unsupportedUnits "bogus") :=
  (convertFrequencyUnits_unsupported ⟨2, 3, 5⟩ [1] "bogus" "thz").1 (by decide) (by decide)

/-- Claim C8: for recognized keys and positive values (and the physically
positive conversion constants), converting from A to B and back from B to
A restores the original list exactly over exact rational arithmetic. -/
theorem convertFrequencyUnits_round_trip (C : UnitConstants) (values : List ℚ)
    (uA uB : String)
    (hc1 : 0 < C.THzToInvCm) (hc2 : 0 < C.THzToMeV) (hc3 : 0 < C.THzToInvUm)
    (hA : strLower uA ∈ recognizedUnitKeys) (hB : strLower uB ∈ recognizedUnitKeys)
    (hpos : ∀ v ∈ values, 0 < v) :
    ∃ mid, ConvertFrequencyUnits C values uA uB = Except.ok mid
      ∧ ConvertFrequencyUnits C mid uB uA = Except.ok values := by
  by_cases heq : strLower uA = strLower uB
  · exact ⟨values, convert_same_key C values uA uB heq,
      convert_same_key C values uB uA heq.symm⟩
  · refine ⟨_, convert_eq_pipeline C values uA uB hA hB heq, ?_⟩
    rw [convert_eq_pipeline C _ uB uA hB hA (Ne.symm heq), List.map_map]
    congr 1
    refine list_map_id_of_mem values _ fun v hv => ?_
    have hv0 := hpos v hv
    have hp1 : 0 < specToPivot C (strLower uA) v :=
      specToPivot_pos C hc1 hc2 hc3 _ hA v hv0
    simp only [Function.comp]
    rw [specToPivot_specFromPivot C hc1 hc2 hc3 _ hB _ hp1,
      specFromPivot_specToPivot C hc1 hc2 hc3 _ hA v hv0]

theorem convertFrequencyUnits_round_trip_witness :
    ∃ mid, ConvertFrequencyUnits ⟨2, 3, 5⟩ [1, 2] "um" "mev" = Except.ok mid
      ∧ ConvertFrequencyUnits ⟨2, 3, 5⟩ mid "mev" "um" = Except.ok [1, 2] :=
  convertFrequencyUnits_round_trip ⟨2, 3, 5⟩ [1, 2] "um" "mev"
    (by decide) (by decide) (by decide) (by decide) (by decide) (by decide)

/-- Arithmetic mean of a list, as np.average computes it for 1-D input. -/
def npAverage (xs : List ℚ) : ℚ := xs.sum / xs.length

/-- The validation loop of GroupForPeakTable over the flattened band
indices: an index already seen is a duplicate, an index outside 1..N is
out of bounds, and fresh indices are accumulated (most recent first). -/
def checkIndices (numModes : ℕ) (included : List ℤ) : List ℤ → Except UtilError (List ℤ)
  | [] => Except.ok included
  | index :: rest =>
    if index ∈ included then Except.error (UtilError.duplicateBandIndex index)
    else if index < 1 ∨ index > (numModes : ℤ) then
      Except.error (UtilError.bandIndexOutOfRange index numModes)
    else checkIndices numModes (index :: included) rest

/-- The per-group reduction applied to frequencies and linewidths: a
singleton group passes its value through, a larger group is averaged
(1-based band indices are shifted down before indexing). -/
def groupValue (values : List ℚ) (bandIndices : List ℤ) : ℚ :=
  match bandIndices with
  | [index] => values.getD (index - 1).toNat 0
  | l => npAverage (l.map (fun index => values.getD (index - 1).toNat 0))

/-- The per-group reduction applied to intensities: a singleton group
passes its value through, a larger group is summed. -/
def groupIntensity (values : List ℚ) (bandIndices : List ℤ) : ℚ :=
  match bandIndices with
  | [index] => values.getD (index - 1).toNat 0
  | l => (l.map (fun index => values.getD (index - 1).toNat 0)).sum

/-- Embedding of GroupForPeakTable: length checks, band-index validation
over the groups in order, coverage check, then the per-group reduction,
with the outputs ordered as the ir. rep. groups were given. -/
def GroupForPeakTable (frequencies intensities : List ℚ)
    (irRepData : List (String × List ℤ)) (linewidths : Option (List ℚ)) :
    Except UtilError (List ℚ × List ℚ × List String × Option (List ℚ)) :=
  let numModes := frequencies.length
  if intensities.length ≠ numModes then Except.error UtilError.inconsistentLength
  else if linewidths.elim false (fun lw => lw.length != numModes) then
    Except.error UtilError.inconsistentLength
  else
    match checkIndices numModes [] ((irRepData.map Prod.snd).flatten) with
    | Except.error e => Except.error e
    | Except.ok included =>
      if included.length ≠ numModes then Except.error UtilError.incompleteBandCoverage
      else
        Except.ok
          (irRepData.map (fun g => groupValue frequencies g.2),
           irRepData.map (fun g => groupIntensity intensities g.2),
           irRepData.map Prod.fst,
           linewidths.map (fun lw => irRepData.map (fun g => groupValue lw g.2)))

theorem checkIndices_ok (numModes : ℕ) :
    ∀ (l included : List ℤ),
      (∀ i ∈ l, 1 ≤ i ∧ i ≤ (numModes : ℤ)) → l.Nodup → (∀ i ∈ l, i ∉ included) →
      checkIndices numModes included l = Except.ok (l.reverse ++ included) := by
  intro l
  induction l with
  | nil => intro included _ _ _; simp [checkIndices]
  | cons index rest ih =>
    intro included hrange hnodup hfresh
    have hmem : index ∉ included := hfresh index (List.mem_cons_self index rest)
    have hrg := hrange index (List.mem_cons_self index rest)
    have hnotlt : ¬(index < 1 ∨ index > (numModes : ℤ)) := by
      push_neg
      exact ⟨hrg.1, hrg.2⟩
    rw [List.nodup_cons] at hnodup
    have hrec := ih (index :: included)
      (fun i hi => hrange i (List.mem_cons_of_mem index hi)) hnodup.2
      (fun i hi => by
        simp only [List.mem_cons, not_or]
        exact ⟨fun h => hnodup.1 (h ▸ hi), fun h => hfresh i (List.mem_cons_of_mem index hi) h⟩)
    simp only [checkIndices, if_neg hmem, if_neg hnotlt, hrec, List.reverse_cons,
      List.append_assoc, List.singleton_append]

theorem checkIndices_dup (numModes : ℕ) :
    ∀ (l included : List ℤ),
      (∀ i ∈ l, 1 ≤ i ∧ i ≤ (numModes : ℤ)) → ¬ (included ++ l).Nodup → included.Nodup →
      ∃ i, checkIndices numModes included l = Except.error (UtilError.duplicateBandIndex i)
        ∧ 2 ≤ (included ++ l).count i := by
  intro l
  induction l with
  | nil => intro included _ hdup hincl; exact absurd (by simpa using hincl) hdup
  | cons index rest ih =>
    intro included hrange hdup hincl
    by_cases hmem : index ∈ included
    · refine ⟨index, by simp [checkIndices, hmem], ?_⟩
      rw [List.count_append]
      have h1 : 1 ≤ included.count index := List.count_pos_iff.mpr hmem
      have h2 : 1 ≤ (index :: rest).count index := by
        simp [List.count_cons_self]
      omega
    · have hrg := hrange index (List.mem_cons_self index rest)
      have hnotlt : ¬(index < 1 ∨ index > (numModes : ℤ)) := by
        push_neg
        exact ⟨hrg.1, hrg.2⟩
      have hperm : List.Perm (included ++ index :: rest) ((index :: included) ++ rest) :=
        List.perm_middle
      have hdup2 : ¬ ((index :: included) ++ rest).Nodup := fun h =>
        hdup (hperm.nodup_iff.mpr h)
      have hincl2 : (index :: included).Nodup := List.nodup_cons.mpr ⟨hmem, hincl⟩
      obtain ⟨j, hrun, hcount⟩ := ih (index :: included)
        (fun i hi => hrange i (List.mem_cons_of_mem index hi)) hdup2 hincl2
      refine ⟨j, ?_, ?_⟩
      · simp only [checkIndices, if_neg hmem, if_neg hnotlt]
        exact hrun
      · rw [hperm.count_eq]
        exact hcount

theorem groupForPeakTable_ok (frequencies intensities : List ℚ)
    (irRepData : List (String × List ℤ)) (linewidths : Option (List ℚ))
    (hint : intensities.length = frequencies.length)
    (hlw : ∀ lw ∈ linewidths, lw.length = frequencies.length)
    (hrange : ∀ i ∈ (irRepData.map Prod.snd).flatten, 1 ≤ i ∧ i ≤ (frequencies.length : ℤ))
    (hnodup : ((irRepData.map Prod.snd).flatten).Nodup)
    (hcount : ((irRepData.map Prod.snd).flatten).length = frequencies.length) :
    GroupForPeakTable frequencies intensities irRepData linewidths =
      Except.ok
        (irRepData.map (fun g => groupValue frequencies g.2),
         irRepData.map (fun g => groupIntensity intensities g.2),
         irRepData.map Prod.fst,
         linewidths.map (fun lw => irRepData.map (fun g => groupValue lw g.2))) := by
  have hjoin := checkIndices_ok frequencies.length ((irRepData.map Prod.snd).flatten) []
    hrange hnodup (fun i _ h => List.not_mem_nil i h)
  cases linewidths with
  | none =>
    simp only [GroupForPeakTable, hint, hjoin]
    simp [hcount]
  | some lw =>
    have hlw' : lw.length = frequencies.length := hlw lw rfl
    simp only [GroupForPeakTable, hint, hjoin]
    simp [hcount, hlw']

/-- Claim C1: on every consistent input whose band indices partition 1..N,
GroupForPeakTable succeeds and its outputs follow the groups of irRepData
in the given order: singleton groups pass the indexed frequency, intensity
and linewidth through, larger groups take the mean frequency, the summed
intensity and the mean linewidth, and the symbols output is exactly the
sequence of group symbols. -/
theorem groupForPeakTable_reduction (frequencies intensities : List ℚ)
    (irRepData : List (String × List ℤ)) (linewidths : Option (List ℚ))
    (hint : intensities.length = frequencies.length)
    (hlw : ∀ lw ∈ linewidths, lw.length = frequencies.length)
    (hrange : ∀ i ∈ (irRepData.map Prod.snd).flatten, 1 ≤ i ∧ i ≤ (frequencies.length : ℤ))
    (hnodup : ((irRepData.map Prod.snd).flatten).Nodup)
    (hcount : ((irRepData.map Prod.snd).flatten).length = frequencies.length) :
    GroupForPeakTable frequencies intensities irRepData linewidths =
      Except.ok
        (irRepData.map (fun g => groupValue frequencies g.2),
         irRepData.map (fun g => groupIntensity intensities g.2),
         irRepData.map Prod.fst,
         linewidths.map (fun lw => irRepData.map (fun g => groupValue lw g.2))) :=
  groupForPeakTable_ok frequencies intensities irRepData linewidths
    hint hlw hrange hnodup hcount

theorem groupForPeakTable_reduction_witness :
    GroupForPeakTable [10, 20, 30, 40] [1, 2, 3, 4]
        [("A", [1]), ("B", [2, 3]), ("C", [4])] (some [5, 6, 7, 8]) =
      Except.ok ([10, 25, 40], [1, 5, 4], ["A", "B", "C"], some [5, 13/2, 8]) := by
  have h := groupForPeakTable_reduction [10, 20, 30, 40] [1, 2, 3, 4]
    [("A", [1]), ("B", [2, 3]), ("C", [4])] (some [5, 6, 7, 8])
    (by decide) (fun lw hm => by cases hm; decide) (by decide) (by decide) (by decide)
  rw [h]
  norm_num [groupValue, groupIntensity, npAverage]
  simp only [show Int.toNat 2 - 1 = 1 from rfl, show Int.toNat 3 - 1 = 2 from rfl,
    show Int.toNat 4 - 1 = 3 from rfl]
  norm_num

/-- Claim C4 is refuted on the duplicate side: a band index that is both
duplicated and out of range trips the range check first, because each
index is range-checked as soon as it is first seen. -/
theorem groupForPeakTable_duplicate_preempted :
    GroupForPeakTable [0, 0, 0] [0, 0, 0] [("A", [5, 5])] none =
      Except.error (UtilError.bandIndexOutOfRange 5 3) := by decide

/-- Claim C4 (amended): on inputs with consistent lengths whose band
indices all lie in 1..N, a duplicated index fails with the duplicate-index
error naming a duplicated index, before the coverage check; and with no
duplicates but fewer than N indices referenced, the call fails with the
incomplete-coverage error. -/
theorem groupForPeakTable_validation_order (frequencies intensities : List ℚ)
    (irRepData : List (String × List ℤ)) (linewidths : Option (List ℚ))
    (hint : intensities.length = frequencies.length)
    (hlw : ∀ lw ∈ linewidths, lw.length = frequencies.length)
    (hrange : ∀ i ∈ (irRepData.map Prod.snd).flatten, 1 ≤ i ∧ i ≤ (frequencies.length : ℤ)) :
    (¬ ((irRepData.map Prod.snd).flatten).Nodup →
      ∃ i, GroupForPeakTable frequencies intensities irRepData linewidths =
          Except.error (UtilError.duplicateBandIndex i)
        ∧ 2 ≤ ((irRepData.map Prod.snd).flatten).count i)
    ∧ (((irRepData.map Prod.snd).flatten).Nodup →
        ((irRepData.map Prod.snd).flatten).length < frequencies.length →
      GroupForPeakTable frequencies intensities irRepData linewidths =
        Except.error UtilError.incompleteBandCoverage) := by
  constructor
  · intro hdup
    obtain ⟨i, hrun, hcount⟩ := checkIndices_dup frequencies.length
      ((irRepData.map Prod.snd).flatten) [] hrange (by simpa using hdup) List.nodup_nil
    refine ⟨i, ?_, by simpa using hcount⟩
    cases linewidths with
    | none =>
      simp only [GroupForPeakTable, hint, hrun]
      simp
    | some lw =>
      have hlw' : lw.length = frequencies.length := hlw lw rfl
      simp only [GroupForPeakTable, hint, hrun]
      simp [hlw']
  · intro hnodup hlt
    have hjoin := checkIndices_ok frequencies.length ((irRepData.map Prod.snd).flatten) []
      hrange hnodup (fun i _ h => List.not_mem_nil i h)
    have hne : ¬ (List.map (List.length ∘ Prod.snd) irRepData).sum = frequencies.length := by
      have hsum : (List.map (List.length ∘ Prod.snd) irRepData).sum =
          ((irRepData.map Prod.snd).flatten).length := by
        simp [List.length_flatten, List.map_map]
      rw [hsum]
      exact Nat.ne_of_lt hlt
    cases linewidths with
    | none =>
      simp only [GroupForPeakTable, hint, hjoin]
      simp [hne]
    | some lw =>
      have hlw' : lw.length = frequencies.length := hlw lw rfl
      simp only [GroupForPeakTable, hint, hjoin]
      simp [hlw', hne]

theorem groupForPeakTable_validation_order_witness :
    (∃ i, GroupForPeakTable [0, 0, 0] [0, 0, 0] [("A", [1, 1, 2])] none =
        Except.error (UtilError.duplicateBandIndex i)
      ∧ 2 ≤ (([(("A" : String), [(1 : ℤ), 1, 2])].map Prod.snd).flatten).count i)
    ∧ GroupForPeakTable [0, 0, 0] [0, 0, 0] [("B", [1, 2])] none =
        Except.error UtilError.incompleteBandCoverage :=
  ⟨(groupForPeakTable_validation_order [0, 0, 0] [0, 0, 0] [("A", [1, 1, 2])] none
      (by decide) (fun lw hm => by cases hm) (by decide)).1 (by decide),
   (groupForPeakTable_validation_order [0, 0, 0] [0, 0, 0] [("B", [1, 2])] none
      (by decide) (fun lw hm => by cases hm) (by decide)).2 (by decide) (by decide)⟩

/-- Claim C10: under a valid partition, omitting linewidths yields a
successful call whose fourth output is none (no linewidth validation can
fire), while supplying linewidths of length N yields a fourth output with
one entry per irrep group, reduced by the same singleton-passthrough or
mean rule as the frequencies. -/
theorem groupForPeakTable_linewidths_optional (frequencies intensities : List ℚ)
    (irRepData : List (String × List ℤ))
    (hint : intensities.length = frequencies.length)
    (hrange : ∀ i ∈ (irRepData.map Prod.snd).flatten, 1 ≤ i ∧ i ≤ (frequencies.length : ℤ))
    (hnodup : ((irRepData.map Prod.snd).flatten).Nodup)
    (hcount : ((irRepData.map Prod.snd).flatten).length = frequencies.length) :
    (GroupForPeakTable frequencies intensities irRepData none =
      Except.ok
        (irRepData.map (fun g => groupValue frequencies g.2),
         irRepData.map (fun g => groupIntensity intensities g.2),
         irRepData.map Prod.fst, none))
    ∧ (∀ lw : List ℚ, lw.length = frequencies.length →
        GroupForPeakTable frequencies intensities irRepData (some lw) =
          Except.ok
            (irRepData.map (fun g => groupValue frequencies g.2),
             irRepData.map (fun g => groupIntensity intensities g.2),
             irRepData.map Prod.fst,
             some (irRepData.map (fun g => groupValue lw g.2)))
        ∧ (irRepData.map (fun g => groupValue lw g.2)).length = irRepData.length) := by
  constructor
  · simpa using groupForPeakTable_ok frequencies intensities irRepData none
      hint (fun lw hm => by cases hm) hrange hnodup hcount
  · intro lw hlw
    refine ⟨?_, List.length_map _ _⟩
    simpa using groupForPeakTable_ok frequencies intensities irRepData (some lw)
      hint (fun lw0 hm => by cases hm; exact hlw) hrange hnodup hcount

theorem groupForPeakTable_linewidths_optional_witness :
    (GroupForPeakTable [10, 20, 30, 40] [1, 2, 3, 4]
        [("A", [1]), ("B", [2, 3]), ("C", [4])] none =
      Except.ok
        ([("A", [1]), ("B", [2, 3]), ("C", [4])].map
           (fun g => groupValue [10, 20, 30, 40] g.2),
         [("A", [1]), ("B", [2, 3]), ("C", [4])].map
           (fun g => groupIntensity [1, 2, 3, 4] g.2),
         [("A", [1]), ("B", [2, 3]), ("C", [4])].map Prod.fst, none))
    ∧ (∀ lw : List ℚ, lw.length = ([10, 20, 30, 40] : List ℚ).length →
        GroupForPeakTable [10, 20, 30, 40] [1, 2, 3, 4]
            [("A", [1]), ("B", [2, 3]), ("C", [4])] (some lw) =
          Except.ok
            ([("A", [1]), ("B", [2, 3]), ("C", [4])].map
               (fun g => groupValue [10, 20, 30, 40] g.2),
             [("A", [1]), ("B", [2, 3]), ("C", [4])].map
               (fun g => groupIntensity [1, 2, 3, 4] g.2),
             [("A", [1]), ("B", [2, 3]), ("C", [4])].map Prod.fst,
             some ([("A", [1]), ("B", [2, 3]), ("C", [4])].map
               (fun g => groupValue lw g.2)))
        ∧ ([("A", [1]), ("B", [2, 3]), ("C", [4])].map
             (fun g => groupValue lw g.2)).length =
            ([("A", [1]), ("B", [2, 3]), ("C", [4])] : List (String × List ℤ)).length) :=
  groupForPeakTable_linewidths_optional [10, 20, 30, 40] [1, 2, 3, 4]
    [("A", [1]), ("B", [2, 3]), ("C", [4])] (by decide) (by decide) (by decide) (by decide)

/-- Componentwise sum of two rows, as NumPy vector addition computes it
for equal-length rows. -/
def vecAdd (xs ys : List ℚ) : List ℚ := List.zipWith (· + ·) xs ys

/-- Embedding of FractionalToCartesianCoordinates: reject a lattice that
is not a 3x3 matrix, then map each fractional triple (f1, f2, f3) to
f1 * v1 + f2 * v2 + f3 * v3 over the three lattice row-vectors; no
inverse is ever computed. -/
def FractionalToCartesianCoordinates (positions : List (ℚ × ℚ × ℚ))
    (latticeVectors : List (List ℚ)) : Except UtilError (List (List ℚ)) :=
  if latticeVectors.length = 3 ∧ ∀ row ∈ latticeVectors, row.length = 3 then
    let v1 := latticeVectors.getD 0 []
    let v2 := latticeVectors.getD 1 []
    let v3 := latticeVectors.getD 2 []
    Except.ok (positions.map (fun p =>
      vecAdd (vecAdd (v1.map (fun x => p.1 * x)) (v2.map (fun x => p.2.1 * x)))
        (v3.map (fun x => p.2.2 * x))))
  else Except.error UtilError.invalidLatticeShape

/-- Claim C9: for every 3x3 lattice, singular or not, and every list of
fractional triples, the fractional-to-cartesian transform succeeds and
returns f1 * v1 + f2 * v2 + f3 * v3 for each position, with v1, v2, v3
the three lattice row-vectors; no invertibility is required. -/
theorem fractionalToCartesian_linear_combination (positions : List (ℚ × ℚ × ℚ))
    (latticeVectors : List (List ℚ))
    (h3 : latticeVectors.length = 3)
    (hrow : ∀ row ∈ latticeVectors, row.length = 3) :
    FractionalToCartesianCoordinates positions latticeVectors =
      Except.ok (positions.map (fun p =>
        vecAdd (vecAdd ((latticeVectors.getD 0 []).map (fun x => p.1 * x))
            ((latticeVectors.getD 1 []).map (fun x => p.2.1 * x)))
          ((latticeVectors.getD 2 []).map (fun x => p.2.2 * x)))) := by
  unfold FractionalToCartesianCoordinates
  rw [if_pos ⟨h3, hrow⟩]

theorem fractionalToCartesian_linear_combination_witness :
    FractionalToCartesianCoordinates [(1, 1, 1)] [[1, 0, 0], [2, 0, 0], [3, 0, 0]] =
      Except.ok [[6, 0, 0]] := by
  have h := fractionalToCartesian_linear_combination [(1, 1, 1)]
    [[1, 0, 0], [2, 0, 0], [3, 0, 0]] (by decide) (by decide)
  rw [h]
  norm_num [vecAdd]

/-- Embedding of EigenvectorsToEigendisplacements: reading the mode,
atom and component counts off the first entries fails on empty input
(an uncaught index error in the original); the shape and mass-count
checks follow; the transform divides the j-th displacement of every mode
by the square root of the j-th atomic mass, iterating over index ranges
exactly as the source loops do. -/
noncomputable def EigenvectorsToEigendisplacements
    (eigenvectors : List (List (List ℝ))) (atomicMasses : List ℝ) :
    Except UtilError (List (List (List ℝ))) :=
  match eigenvectors with
  | [] => Except.error UtilError.indexError
  | ev0 :: _ =>
    match ev0 with
    | [] => Except.error UtilError.indexError
    | d0 :: _ =>
      let numModes := eigenvectors.length
      let numAtoms := ev0.length
      if numModes ≠ 3 * numAtoms ∨ d0.length ≠ 3 then Except.error UtilError.shapeMismatch
      else if atomicMasses.length ≠ numAtoms then Except.error UtilError.massCountMismatch
      else
        Except.ok ((List.range numModes).map (fun i =>
          (List.range numAtoms).map (fun j =>
            ((eigenvectors.getD i []).getD j []).map
              (fun c => c / Real.sqrt (atomicMasses.getD j 0)))))

theorem range_map_getD {α β : Type} (d : α) :
    ∀ (l : List α) (g : α → β),
      (List.range l.length).map (fun i => g (l.getD i d)) = l.map g := by
  intro l
  induction l with
  | nil => intro g; rfl
  | cons a as ih =>
    intro g
    rw [List.length_cons, List.range_succ_eq_map, List.map_cons, List.map_map]
    simp only [List.getD_cons_zero, Function.comp]
    rw [List.map_cons]
    congr 1
    exact ih g

theorem rowRange_eq_zip :
    ∀ (masses : List ℝ) (ev : List (List ℝ)), ev.length = masses.length →
      (List.range masses.length).map (fun j =>
        (ev.getD j []).map (fun c => c / Real.sqrt (masses.getD j 0))) =
      (ev.zip masses).map (fun p => p.1.map (fun c => c / Real.sqrt p.2)) := by
  intro masses
  induction masses with
  | nil =>
    intro ev hlen
    rw [List.length_eq_zero.mp hlen]
    rfl
  | cons m ms ih =>
    intro ev hlen
    match ev with
    | [] => simp at hlen
    | e :: es =>
      rw [List.length_cons] at hlen
      rw [List.length_cons, List.range_succ_eq_map, List.map_cons, List.map_map]
      simp only [List.getD_cons_zero, Function.comp]
      rw [List.zip_cons_cons, List.map_cons]
      congr 1
      exact ih es (Nat.succ_injective hlen)

/-- Claim C6: on every eigenvector set of shape 3N x N x 3 with a matching
mass list (N at least one atom), the transform succeeds and divides every
per-atom 3-vector of every mode componentwise by the square root of that
atom's mass, preserving the shape. -/
theorem eigenvectorsToEigendisplacements_scaling
    (eigenvectors : List (List (List ℝ))) (atomicMasses : List ℝ)
    (hmass : atomicMasses ≠ [])
    (hmodes : eigenvectors.length = 3 * atomicMasses.length)
    (hatoms : ∀ ev ∈ eigenvectors, ev.length = atomicMasses.length)
    (hdisp : ∀ ev ∈ eigenvectors, ∀ d ∈ ev, d.length = 3) :
    EigenvectorsToEigendisplacements eigenvectors atomicMasses =
      Except.ok (eigenvectors.map (fun ev =>
        (ev.zip atomicMasses).map (fun p => p.1.map (fun c => c / Real.sqrt p.2)))) := by
  match eigenvectors, hmodes, hatoms, hdisp with
  | [], hmodes, _, _ =>
    exfalso
    have hpos := List.length_pos.mpr hmass
    rw [List.length_nil] at hmodes
    omega
  | ev0 :: rest, hmodes, hatoms, hdisp =>
    have hev0 : ev0.length = atomicMasses.length :=
      hatoms ev0 (List.mem_cons_self ev0 rest)
    match ev0, hev0 with
    | [], hev0 =>
      exfalso
      have hpos := List.length_pos.mpr hmass
      rw [List.length_nil] at hev0
      omega
    | d0 :: ds, hev0 =>
      have hd0 : d0.length = 3 :=
        hdisp (d0 :: ds) (List.mem_cons_self _ rest) d0 (List.mem_cons_self d0 ds)
      have hc1 : ¬ (((d0 :: ds) :: rest).length ≠ 3 * (d0 :: ds).length ∨ d0.length ≠ 3) := by
        push_neg
        exact ⟨by omega, hd0⟩
      have hc2 : ¬ (atomicMasses.length ≠ (d0 :: ds).length) := by omega
      simp only [EigenvectorsToEigendisplacements, if_neg hc1, if_neg hc2]
      rw [hev0]
      have houter := range_map_getD ([] : List (List ℝ)) ((d0 :: ds) :: rest)
        (fun ev => (List.range atomicMasses.length).map (fun j =>
          (ev.getD j []).map (fun c => c / Real.sqrt (atomicMasses.getD j 0))))
      rw [houter]
      congr 1
      refine List.map_congr_left fun ev hev => ?_
      exact rowRange_eq_zip atomicMasses ev (hatoms ev hev)

theorem eigenvectorsToEigendisplacements_scaling_witness :
    EigenvectorsToEigendisplacements [[[2, 0, 0]], [[2, 0, 0]], [[2, 0, 0]]] [4] =
      Except.ok ([[[2, 0, 0]], [[2, 0, 0]], [[2, 0, 0]]].map (fun ev =>
        (ev.zip [(4 : ℝ)]).map (fun p => p.1.map (fun c => c / Real.sqrt p.2)))) :=
  eigenvectorsToEigendisplacements_scaling
    [[[2, 0, 0]], [[2, 0, 0]], [[2, 0, 0]]] [4]
    (List.cons_ne_nil 4 [])
    rfl
    (fun ev hev => by
      simp only [List.mem_cons, List.not_mem_nil, or_false] at hev
      rcases hev with rfl | rfl | rfl <;> rfl)
    (fun ev hev d hd => by
      simp only [List.mem_cons, List.not_mem_nil, or_false] at hev
      rcases hev with rfl | rfl | rfl <;>
        (simp only [List.mem_cons, List.not_mem_nil, or_false] at hd
         rcases hd with rfl
         rfl))

/-- Claim C6 is refuted at the degenerate empty input, which satisfies the
shape preconditions vacuously (0 modes, 0 atoms, 0 masses) but trips the
unguarded read of the first mode vector (an uncaught index error in the
original) instead of returning an empty result. -/
theorem eigendisp_empty_input_crash :
    EigenvectorsToEigendisplacements [] [] = Except.error UtilError.indexError := rfl

/-- Claim C5 is refuted as stated: a lone mode eigenvector [[2, 0, 0]]
for a single atom fails the 3N-mode shape check (1 mode versus 3 * 1),
so the call errors instead of returning [[1, 0, 0]]. -/
theorem eigendisp_single_mode_rejected :
    EigenvectorsToEigendisplacements [[[2, 0, 0]]] [4] =
      Except.error UtilError.shapeMismatch := by
  simp [EigenvectorsToEigendisplacements]

/-- Claim C5 (amended): for N = 1 atom of mass 4.0 the eigenvector set
must hold 3N = 3 modes; with every mode eigenvector [[2, 0, 0]] each mode
is scaled to [[1, 0, 0]] (division by sqrt(4) = 2), while passing the
single mode alone fails the shape check. -/
theorem eigendisp_three_modes_scaled :
    EigenvectorsToEigendisplacements [[[2, 0, 0]], [[2, 0, 0]], [[2, 0, 0]]] [4] =
      Except.ok [[[1, 0, 0]], [[1, 0, 0]], [[1, 0, 0]]]
    ∧ EigenvectorsToEigendisplacements [[[2, 0, 0]]] [4] =
      Except.error UtilError.shapeMismatch := by
  constructor
  · have h4 : Real.sqrt 4 = 2 := by
      rw [show (4 : ℝ) = 2 ^ 2 by norm_num, Real.sqrt_sq (by norm_num : (0 : ℝ) ≤ 2)]
    simp only [EigenvectorsToEigendisplacements]
    norm_num [h4, List.range_succ]
  · simp [EigenvectorsToEigendisplacements]

end SpectroscoPy
